import Mathlib

/-!
Shallow embedding of the linearization-core test code of g2o
(`unit_test/slam3d/jacobians_slam3d.cpp`) together with models of the
spec-described collaborators that the tests exercise.

The functor `RotationMatrix2QuaternionManifold::operator()` is templated over
its scalar type `T` in the source (so that it can be instantiated both at
`double` and at an automatic-differentiation scalar); we mirror this by a
family of definitions over an arbitrary linearly ordered field together with
an explicit square-root function, instantiated at `ℝ` with `Real.sqrt` in the
theorems (the `double` instantiation).
-/

namespace G2O

variable {α : Type} [LinearOrderedField α]

/-- `R.trace()` for the 3×3 matrix `R` of the functor. -/
def traceR (R : Fin 3 → Fin 3 → α) : α := R 0 0 + R 1 1 + R 2 2

/-- The diagonal-index selection of the `else` branch of
`RotationMatrix2QuaternionManifold::operator()`:
`int i = 0; if (R(1,1) > R(0,0)) i = 1; if (R(2,2) > R(i,i)) i = 2;`. -/
def selectDiagIdx (R : Fin 3 → Fin 3 → α) : Fin 3 :=
  if R 2 2 > R (if R 1 1 > R 0 0 then 1 else 0) (if R 1 1 > R 0 0 then 1 else 0) then 2
  else if R 1 1 > R 0 0 then 1 else 0

/-- The argument `R(i,i) - R(j,j) - R(k,k) + 1` passed to `sqrt` in the
`else` branch, with `i` the selected diagonal index, `j = (i+1)%3` and
`k = (j+1)%3` (`Fin 3` addition is arithmetic mod 3). -/
def sqrtArg (R : Fin 3 → Fin 3 → α) : α :=
  R (selectDiagIdx R) (selectDiagIdx R)
    - R (selectDiagIdx R + 1) (selectDiagIdx R + 1)
    - R (selectDiagIdx R + 1 + 1) (selectDiagIdx R + 1 + 1) + 1

/-- The three imaginary quaternion components written by the `else` branch
before the sign normalization: `quaternion[i] = 0.5*t`,
`quaternion[j] = (R(j,i)+R(i,j))*(0.5/t)`, `quaternion[k] = (R(k,i)+R(i,k))*(0.5/t)`
with `t = sqrt(R(i,i)-R(j,j)-R(k,k)+1)`. -/
def preQuat (sqrtF : α → α) (R : Fin 3 → Fin 3 → α) : Fin 3 → α := fun l =>
  if l = selectDiagIdx R then (1/2 : α) * sqrtF (sqrtArg R)
  else if l = selectDiagIdx R + 1 then
    (R (selectDiagIdx R + 1) (selectDiagIdx R) + R (selectDiagIdx R) (selectDiagIdx R + 1))
      * ((1/2 : α) / sqrtF (sqrtArg R))
  else
    (R (selectDiagIdx R + 1 + 1) (selectDiagIdx R) + R (selectDiagIdx R) (selectDiagIdx R + 1 + 1))
      * ((1/2 : α) / sqrtF (sqrtArg R))

/-- The real (scalar) quaternion part computed in the `else` branch:
`T w = (R(k,j) - R(j,k)) * t;` with `t = 0.5/sqrt(...)`. -/
def wPart (sqrtF : α → α) (R : Fin 3 → Fin 3 → α) : α :=
  (R (selectDiagIdx R + 1 + 1) (selectDiagIdx R + 1)
    - R (selectDiagIdx R + 1) (selectDiagIdx R + 1 + 1))
    * ((1/2 : α) / sqrtF (sqrtArg R))

/-- The quaternion (imaginary parts only, as in the source) produced by
`RotationMatrix2QuaternionManifold::operator()`.  The `trace > 0` branch is
inlined; the `else` branch negates all three components when `w < 0`. -/
def rot2quat (sqrtF : α → α) (R : Fin 3 → Fin 3 → α) : Fin 3 → α :=
  if traceR R > 0 then
    ![(R 2 1 - R 1 2) * ((1/2 : α) / sqrtF (traceR R + 1)),
      (R 0 2 - R 2 0) * ((1/2 : α) / sqrtF (traceR R + 1)),
      (R 1 0 - R 0 1) * ((1/2 : α) / sqrtF (traceR R + 1))]
  else if wPart sqrtF R < 0 then fun l => -(preQuat sqrtF R l)
  else preQuat sqrtF R

/-- The full call of the functor: the written quaternion components together
with the returned boolean (the source unconditionally ends in `return true`). -/
def rot2quatCall (sqrtF : α → α) (R : Fin 3 → Fin 3 → α) : (Fin 3 → α) × Bool :=
  (rot2quat sqrtF R, true)

/-- The real part of the representative actually returned: the computed `w`,
negated together with the imaginary components whenever the sign
normalization of the source fires. -/
def returnedW (sqrtF : α → α) (R : Fin 3 → Fin 3 → α) : α :=
  if wPart sqrtF R < 0 then -(wPart sqrtF R) else wPart sqrtF R

/-- `R` has orthonormal columns (the rotation-matrix assumption of the spec). -/
def IsOrthonormal (R : Fin 3 → Fin 3 → ℝ) : Prop :=
  ∀ c c' : Fin 3, (∑ r : Fin 3, R r c * R r c') = if c = c' then 1 else 0

theorem selectDiagIdx_le (R : Fin 3 → Fin 3 → α) (l : Fin 3) :
    R l l ≤ R (selectDiagIdx R) (selectDiagIdx R) := by
  unfold selectDiagIdx
  split_ifs with h1 h2 h3 <;>
    fin_cases l <;>
    simp_all <;>
    linarith

theorem selectDiagIdx_tiebreak (R : Fin 3 → Fin 3 → α) (l : Fin 3)
    (hl : l < selectDiagIdx R) :
    R l l < R (selectDiagIdx R) (selectDiagIdx R) := by
  unfold selectDiagIdx at *
  split_ifs at * with h1 h2 h3 <;>
    fin_cases l <;>
    simp_all <;>
    linarith

theorem fin3_succ_ne (i : Fin 3) : i + 1 ≠ i ∧ i + 1 + 1 ≠ i ∧ i + 1 + 1 ≠ i + 1 := by
  fin_cases i <;> decide

theorem diag_cycle (R : Fin 3 → Fin 3 → α) (i : Fin 3) :
    R i i + R (i + 1) (i + 1) + R (i + 1 + 1) (i + 1 + 1) = traceR R := by
  fin_cases i <;> simp [traceR] <;> ring

/-- The identity matrix, a rotation with positive trace. -/
def idRot : Fin 3 → Fin 3 → ℝ := fun r c => if r = c then 1 else 0

/-- Rotation by π about the x-axis: diagonal `(1, -1, -1)`, trace `-1 ≤ 0`. -/
def xFlipRot : Fin 3 → Fin 3 → ℝ := fun r c =>
  if r = c then (if r = 0 then 1 else -1) else 0

theorem idRot_orthonormal : IsOrthonormal idRot := by
  intro c c'
  fin_cases c <;> fin_cases c' <;>
    simp [idRot, Fin.sum_univ_three, Fin.ext_iff]

theorem xFlipRot_orthonormal : IsOrthonormal xFlipRot := by
  intro c c'
  fin_cases c <;> fin_cases c' <;>
    simp [xFlipRot, Fin.sum_univ_three, Fin.ext_iff]

theorem xFlipRot_selectDiagIdx : selectDiagIdx xFlipRot = 0 := by
  simp [selectDiagIdx, xFlipRot]
  norm_num

/-- C3: on an orthonormal `R` with positive trace, the functor computes the
three imaginary quaternion components as the antisymmetric differences
`R(2,1)-R(1,2)`, `R(0,2)-R(2,0)`, `R(1,0)-R(0,1)`, each scaled by
`0.5/sqrt(trace(R)+1)`. -/
theorem rot2quat_trace_pos (R : Fin 3 → Fin 3 → ℝ) (_horth : IsOrthonormal R)
    (htr : 0 < R 0 0 + R 1 1 + R 2 2) :
    rot2quat Real.sqrt R 0 = (R 2 1 - R 1 2) * (1/2 / Real.sqrt (R 0 0 + R 1 1 + R 2 2 + 1)) ∧
    rot2quat Real.sqrt R 1 = (R 0 2 - R 2 0) * (1/2 / Real.sqrt (R 0 0 + R 1 1 + R 2 2 + 1)) ∧
    rot2quat Real.sqrt R 2 = (R 1 0 - R 0 1) * (1/2 / Real.sqrt (R 0 0 + R 1 1 + R 2 2 + 1)) := by
  have htr' : 0 < traceR R := htr
  unfold rot2quat
  rw [if_pos htr']
  refine ⟨rfl, rfl, rfl⟩

/-- Witness for C3 at the identity rotation. -/
theorem rot2quat_trace_pos_witness :
    IsOrthonormal idRot ∧ (0 < idRot 0 0 + idRot 1 1 + idRot 2 2) ∧
    (rot2quat Real.sqrt idRot 0 =
      (idRot 2 1 - idRot 1 2) * (1/2 / Real.sqrt (idRot 0 0 + idRot 1 1 + idRot 2 2 + 1)) ∧
    rot2quat Real.sqrt idRot 1 =
      (idRot 0 2 - idRot 2 0) * (1/2 / Real.sqrt (idRot 0 0 + idRot 1 1 + idRot 2 2 + 1)) ∧
    rot2quat Real.sqrt idRot 2 =
      (idRot 1 0 - idRot 0 1) * (1/2 / Real.sqrt (idRot 0 0 + idRot 1 1 + idRot 2 2 + 1))) :=
  ⟨idRot_orthonormal, by norm_num [idRot],
    rot2quat_trace_pos idRot idRot_orthonormal (by norm_num [idRot])⟩

/-- The component-wise description of the `trace ≤ 0` branch: least-argmax
diagonal selection, dominant component `0.5*sqrt(R(i,i)-R(j,j)-R(k,k)+1)`,
off-diagonal sums for the other two components, and the real part from
`R(k,j)-R(j,k)`, all with `j = (i+1)%3`, `k = (j+1)%3`. -/
def elseBranchFormulas (R : Fin 3 → Fin 3 → ℝ) : Prop :=
  (∀ l : Fin 3, R l l ≤ R (selectDiagIdx R) (selectDiagIdx R)) ∧
  (∀ l : Fin 3, l < selectDiagIdx R → R l l < R (selectDiagIdx R) (selectDiagIdx R)) ∧
  preQuat Real.sqrt R (selectDiagIdx R) =
    1/2 * Real.sqrt (R (selectDiagIdx R) (selectDiagIdx R)
      - R (selectDiagIdx R + 1) (selectDiagIdx R + 1)
      - R (selectDiagIdx R + 1 + 1) (selectDiagIdx R + 1 + 1) + 1) ∧
  preQuat Real.sqrt R (selectDiagIdx R + 1) =
    (R (selectDiagIdx R + 1) (selectDiagIdx R) + R (selectDiagIdx R) (selectDiagIdx R + 1))
      * (1/2 / Real.sqrt (sqrtArg R)) ∧
  preQuat Real.sqrt R (selectDiagIdx R + 1 + 1) =
    (R (selectDiagIdx R + 1 + 1) (selectDiagIdx R) + R (selectDiagIdx R) (selectDiagIdx R + 1 + 1))
      * (1/2 / Real.sqrt (sqrtArg R)) ∧
  wPart Real.sqrt R =
    (R (selectDiagIdx R + 1 + 1) (selectDiagIdx R + 1)
      - R (selectDiagIdx R + 1) (selectDiagIdx R + 1 + 1))
      * (1/2 / Real.sqrt (sqrtArg R)) ∧
  rot2quat Real.sqrt R =
    (if wPart Real.sqrt R < 0 then fun l => -(preQuat Real.sqrt R l) else preQuat Real.sqrt R)

/-- C4: on `trace(R) ≤ 0` the functor selects the least diagonal argmax
(running strict max, so ties keep the smaller index), sets `j=(i+1)%3`,
`k=(j+1)%3`, and computes the quaternion components and real part by the
closed-form expressions of the `else` branch. -/
theorem rot2quat_trace_nonpos_branch (R : Fin 3 → Fin 3 → ℝ)
    (htr : R 0 0 + R 1 1 + R 2 2 ≤ 0) : elseBranchFormulas R := by
  have hne := fin3_succ_ne (selectDiagIdx R)
  have htr' : ¬ traceR R > 0 := not_lt.mpr htr
  refine ⟨selectDiagIdx_le R, selectDiagIdx_tiebreak R, ?_, ?_, ?_, ?_, ?_⟩
  · simp [preQuat, sqrtArg]
  · simp [preQuat, hne.1]
  · simp [preQuat, hne.2.1, hne.2.2]
  · simp [wPart]
  · unfold rot2quat
    rw [if_neg htr']

/-- Witness for C4 at the rotation by π about the x-axis. -/
theorem rot2quat_trace_nonpos_branch_witness :
    (xFlipRot 0 0 + xFlipRot 1 1 + xFlipRot 2 2 ≤ 0) ∧ elseBranchFormulas xFlipRot :=
  ⟨by norm_num [xFlipRot, Fin.ext_iff], rot2quat_trace_nonpos_branch xFlipRot (by norm_num [xFlipRot, Fin.ext_iff])⟩

/-- C5: in the `trace ≤ 0` branch, a negative computed real part makes the
functor negate all three imaginary components, so the returned representative
of the ± antipodal pair always has a non-negative real part. -/
theorem rot2quat_sign_flip (R : Fin 3 → Fin 3 → ℝ)
    (htr : R 0 0 + R 1 1 + R 2 2 ≤ 0) :
    (wPart Real.sqrt R < 0 → rot2quat Real.sqrt R = fun l => -(preQuat Real.sqrt R l)) ∧
    0 ≤ returnedW Real.sqrt R := by
  have htr' : ¬ traceR R > 0 := not_lt.mpr htr
  constructor
  · intro hw
    unfold rot2quat
    rw [if_neg htr', if_pos hw]
  · unfold returnedW
    split_ifs with h
    · linarith
    · exact not_lt.mp h

/-- Rotation by 4π/3 about the x-axis: its unit quaternion is
`(-1/2, √3/2, 0, 0)`, so the `else` branch computes a strictly negative real
part `w = -1/2` and the sign normalization fires.  Trace is `0 ≤ 0`. -/
noncomputable def negWRot : Fin 3 → Fin 3 → ℝ := fun r c =>
  if r = 0 then (if c = 0 then 1 else 0)
  else if r = 1 then
    (if c = 0 then 0 else if c = 1 then -(1/2) else Real.sqrt 3 / 2)
  else
    (if c = 0 then 0 else if c = 1 then -(Real.sqrt 3) / 2 else -(1/2))

theorem negWRot_trace : negWRot 0 0 + negWRot 1 1 + negWRot 2 2 ≤ 0 := by
  norm_num [negWRot, Fin.ext_iff]

theorem negWRot_selectDiagIdx : selectDiagIdx negWRot = 0 := by
  simp [selectDiagIdx, negWRot]
  norm_num

theorem negWRot_sqrtArg : sqrtArg negWRot = 3 := by
  unfold sqrtArg
  rw [negWRot_selectDiagIdx]
  norm_num [negWRot, Fin.ext_iff]

theorem negWRot_wPart_neg : wPart Real.sqrt negWRot < 0 := by
  have h3 : (0 : ℝ) < Real.sqrt 3 := Real.sqrt_pos.mpr (by norm_num)
  unfold wPart
  rw [negWRot_selectDiagIdx, negWRot_sqrtArg]
  have hfac : negWRot ((0 : Fin 3) + 1 + 1) ((0 : Fin 3) + 1)
      - negWRot ((0 : Fin 3) + 1) ((0 : Fin 3) + 1 + 1) = -Real.sqrt 3 := by
    norm_num [negWRot, Fin.ext_iff]
    ring
  rw [hfac]
  exact mul_neg_of_neg_of_pos (by linarith) (div_pos (by norm_num) h3)

/-- Witness for C5 at the rotation by 4π/3 about the x-axis: its computed
real part is negative, so the negation path of the functor actually runs. -/
theorem rot2quat_sign_flip_witness :
    (negWRot 0 0 + negWRot 1 1 + negWRot 2 2 ≤ 0) ∧
    wPart Real.sqrt negWRot < 0 ∧
    rot2quat Real.sqrt negWRot = (fun l => -(preQuat Real.sqrt negWRot l)) ∧
    0 ≤ returnedW Real.sqrt negWRot :=
  ⟨negWRot_trace, negWRot_wPart_neg,
    (rot2quat_sign_flip negWRot negWRot_trace).1 negWRot_wPart_neg,
    (rot2quat_sign_flip negWRot negWRot_trace).2⟩

/-- C9: on `trace(R) ≤ 0` the selected diagonal index keeps the `sqrt`
argument at least `1`, so the square root is positive (the division `0.5/t`
is by a nonzero number) and the functor is total, returning `true`. -/
theorem rot2quat_else_total (R : Fin 3 → Fin 3 → ℝ) (_horth : IsOrthonormal R)
    (htr : R 0 0 + R 1 1 + R 2 2 ≤ 0) :
    1 ≤ sqrtArg R ∧ 0 < Real.sqrt (sqrtArg R) ∧ (rot2quatCall Real.sqrt R).2 = true := by
  have hmax0 := selectDiagIdx_le R 0
  have hmax1 := selectDiagIdx_le R 1
  have hmax2 := selectDiagIdx_le R 2
  have hcyc := diag_cycle R (selectDiagIdx R)
  unfold traceR at hcyc
  have harg : 1 ≤ sqrtArg R := by
    unfold sqrtArg
    linarith
  exact ⟨harg, Real.sqrt_pos.mpr (by linarith), rfl⟩

/-- Witness for C9 at the rotation by π about the x-axis. -/
theorem rot2quat_else_total_witness :
    IsOrthonormal xFlipRot ∧ (xFlipRot 0 0 + xFlipRot 1 1 + xFlipRot 2 2 ≤ 0) ∧
    (1 ≤ sqrtArg xFlipRot ∧ 0 < Real.sqrt (sqrtArg xFlipRot) ∧
      (rot2quatCall Real.sqrt xFlipRot).2 = true) :=
  ⟨xFlipRot_orthonormal, by norm_num [xFlipRot, Fin.ext_iff],
    rot2quat_else_total xFlipRot xFlipRot_orthonormal (by norm_num [xFlipRot, Fin.ext_iff])⟩

/-- C10: the sign-flip comparison is strict, so at a real part of exactly
zero no negation happens: the quaternion is returned as computed and the
non-negative-real-part convention holds as `w ≥ 0` with the unflipped
representative at `w = 0`. -/
theorem rot2quat_no_flip_at_zero (R : Fin 3 → Fin 3 → ℝ)
    (htr : R 0 0 + R 1 1 + R 2 2 ≤ 0) (hw : wPart Real.sqrt R = 0) :
    rot2quat Real.sqrt R = preQuat Real.sqrt R ∧
    returnedW Real.sqrt R = wPart Real.sqrt R ∧ 0 ≤ returnedW Real.sqrt R := by
  have htr' : ¬ traceR R > 0 := not_lt.mpr htr
  have hnlt : ¬ wPart Real.sqrt R < 0 := by rw [hw]; exact lt_irrefl 0
  refine ⟨?_, ?_, ?_⟩
  · unfold rot2quat
    rw [if_neg htr', if_neg hnlt]
  · unfold returnedW
    rw [if_neg hnlt]
  · unfold returnedW
    rw [if_neg hnlt, hw]

theorem xFlipRot_wPart : wPart Real.sqrt xFlipRot = 0 := by
  rw [wPart, xFlipRot_selectDiagIdx]
  norm_num [xFlipRot, Fin.ext_iff]

/-- Witness for C10 at the rotation by π about the x-axis, whose computed
real part is exactly zero. -/
theorem rot2quat_no_flip_at_zero_witness :
    (xFlipRot 0 0 + xFlipRot 1 1 + xFlipRot 2 2 ≤ 0) ∧
    wPart Real.sqrt xFlipRot = 0 ∧
    (rot2quat Real.sqrt xFlipRot = preQuat Real.sqrt xFlipRot ∧
    returnedW Real.sqrt xFlipRot = wPart Real.sqrt xFlipRot ∧
    0 ≤ returnedW Real.sqrt xFlipRot) :=
  ⟨by norm_num [xFlipRot, Fin.ext_iff], xFlipRot_wPart,
    rot2quat_no_flip_at_zero xFlipRot (by norm_num [xFlipRot, Fin.ext_iff]) xFlipRot_wPart⟩

/-- Modelled from the spec: `VertexPointXYZ::oplusImpl` is not under `src/`
(the test only calls it through the numeric differentiation); §4.3 specifies
the point update as vector addition of the tangent delta. -/
def oplusPointXYZ (x d : Fin 3 → ℝ) : Fin 3 → ℝ := fun l => x l + d l

/-- The se(3) hat operator packing a 6-dimensional tangent vector
`(dx, dy, dz, wx, wy, wz)` into a 4×4 Lie-algebra matrix, the generator of
the delta transform of §4.3. -/
def se3Hat (d : Fin 6 → ℝ) : Matrix (Fin 4) (Fin 4) ℝ :=
  Matrix.of
    ![![0, -d 5, d 4, d 0],
      ![d 5, 0, -d 3, d 1],
      ![-d 4, d 3, 0, d 2],
      ![0, 0, 0, 0]]

/-- Modelled from the spec: `VertexSE3::oplusImpl` is not under `src/`; §4.3
specifies an exponential-map-like update for rigid transforms composing the
delta transform generated from the tangent vector on the right of the
current estimate. -/
noncomputable def oplusSE3 (X : Matrix (Fin 4) (Fin 4) ℝ) (d : Fin 6 → ℝ) :
    Matrix (Fin 4) (Fin 4) ℝ :=
  X * NormedSpace.exp ℝ (se3Hat d)

theorem se3Hat_neg (d : Fin 6 → ℝ) : se3Hat (-d) = -se3Hat d := by
  ext r c
  fin_cases r <;> fin_cases c <;> simp [se3Hat, Matrix.vecHead, Matrix.vecTail]

/-- C6: `oplus(delta)` followed by `oplus(-delta)` restores the estimate
exactly, for the point vertex (vector addition) and for the rigid-transform
vertex (right composition with the exponential of the tangent). -/
theorem oplus_exact_inverse :
    (∀ x d : Fin 3 → ℝ, oplusPointXYZ (oplusPointXYZ x d) (-d) = x) ∧
    (∀ (X : Matrix (Fin 4) (Fin 4) ℝ) (d : Fin 6 → ℝ),
      oplusSE3 (oplusSE3 X d) (-d) = X) := by
  constructor
  · intro x d
    funext l
    simp [oplusPointXYZ]
  · intro X d
    unfold oplusSE3
    rw [se3Hat_neg, mul_assoc,
      ← Matrix.exp_add_of_commute ℝ (se3Hat d) (-se3Hat d)
        (Commute.neg_right (Commute.refl _))]
    simp [NormedSpace.exp_zero]

/-- The tangent-space basis vector scaled by `eps` used by the numeric
differentiation to perturb one coordinate. -/
noncomputable def tangentBasis (n : ℕ) (c : Fin n) (eps : ℝ) : Fin n → ℝ := fun l =>
  if l = c then eps else 0

/-- Result of one numeric-differentiation pass over a binary edge: the two
Jacobian blocks and the vertex estimates after the pass. -/
structure NumericEval (Si Sj : Type) (De Di Dj : ℕ) where
  blockI : Fin De → Fin Di → ℝ
  blockJ : Fin De → Fin Dj → ℝ
  viFinal : Si
  vjFinal : Sj

/-- Modelled from the spec: the numeric branch of
`BaseBinaryEdge::linearizeOplus()` is not under `src/` (the test only invokes
it).  §4.2 `evaluateNumeric`: for each vertex and each tangent coordinate,
perturb by `+epsilon` along the basis vector via oplus, evaluate the error,
perturb by `-epsilon`, evaluate again, fill the block column with the central
difference `(e(+)-e(-))/(2*epsilon)`, and restore the vertex to the saved
original estimate before returning. -/
noncomputable def evaluateNumeric {Si Sj M : Type} {De Di Dj : ℕ}
    (oplusI : Si → (Fin Di → ℝ) → Si) (oplusJ : Sj → (Fin Dj → ℝ) → Sj)
    (err : Si → Sj → M → Fin De → ℝ) (vi : Si) (vj : Sj) (z : M) (eps : ℝ) :
    NumericEval Si Sj De Di Dj :=
  { blockI := fun r c =>
      (err (oplusI vi (tangentBasis Di c eps)) vj z r
        - err (oplusI vi (tangentBasis Di c (-eps))) vj z r) / (2 * eps)
    blockJ := fun r c =>
      (err vi (oplusJ vj (tangentBasis Dj c eps)) z r
        - err vi (oplusJ vj (tangentBasis Dj c (-eps))) z r) / (2 * eps)
    viFinal := vi
    vjFinal := vj }

/-- C7: the numeric evaluation fills every block column with the central
difference of the error under a `±epsilon` oplus perturbation of the
corresponding vertex, and hands the vertex estimates back exactly as they
were before the call. -/
theorem evaluateNumeric_central_diff_restores {Si Sj M : Type} {De Di Dj : ℕ}
    (oplusI : Si → (Fin Di → ℝ) → Si) (oplusJ : Sj → (Fin Dj → ℝ) → Sj)
    (err : Si → Sj → M → Fin De → ℝ) (vi : Si) (vj : Sj) (z : M) (eps : ℝ) :
    (evaluateNumeric oplusI oplusJ err vi vj z eps).viFinal = vi ∧
    (evaluateNumeric oplusI oplusJ err vi vj z eps).vjFinal = vj ∧
    (∀ r c, (evaluateNumeric oplusI oplusJ err vi vj z eps).blockI r c =
      (err (oplusI vi (tangentBasis Di c eps)) vj z r
        - err (oplusI vi (tangentBasis Di c (-eps))) vj z r) / (2 * eps)) ∧
    (∀ r c, (evaluateNumeric oplusI oplusJ err vi vj z eps).blockJ r c =
      (err vi (oplusJ vj (tangentBasis Dj c eps)) z r
        - err vi (oplusJ vj (tangentBasis Dj c (-eps))) z r) / (2 * eps)) :=
  ⟨rfl, rfl, fun _ _ => rfl, fun _ _ => rfl⟩

/-- Modelled from the spec: `JacobianWorkspace` of
`g2o/core/jacobian_workspace.h` is not under `src/` (the test only sizes,
allocates and reads it).  §3: one reusable buffer per vertex slot, addressed
by slot index 0 or 1, refilled in place by each per-edge evaluation. -/
structure JacWorkspace (β : Type) where
  slot0 : ℕ → β
  slot1 : ℕ → β

/-- The element-by-element write loop of an evaluation, filling positions
`0 .. n-1` of a slot buffer with the freshly computed values. -/
def writeLoop {β : Type} (vals : ℕ → β) : ℕ → (ℕ → β) → ℕ → β
  | 0, buf => buf
  | n + 1, buf => Function.update (writeLoop vals n buf) n (vals n)

theorem writeLoop_lt {β : Type} (vals : ℕ → β) (n : ℕ) (buf : ℕ → β) (p : ℕ)
    (h : p < n) : writeLoop vals n buf p = vals p := by
  induction n with
  | zero => omega
  | succ m ih =>
    unfold writeLoop
    rcases Nat.lt_succ_iff_lt_or_eq.mp h with h' | h'
    · rw [Function.update_noteq (by omega)]
      exact ih h'
    · subst h'
      simp

/-- Modelled from the spec: a per-edge evaluation into an allocated
workspace rewrites the `D_e × D_vi` and `D_e × D_vj` regions of the two slot
buffers with that evaluation's Jacobian values. -/
def evaluateInto {β : Type} (jw : JacWorkspace β) (n0 n1 : ℕ)
    (vals0 vals1 : ℕ → β) : JacWorkspace β :=
  { slot0 := writeLoop vals0 n0 jw.slot0
    slot1 := writeLoop vals1 n1 jw.slot1 }

/-- C8: an evaluation into a previously used workspace fully overwrites both
addressed regions, so any read inside them yields that evaluation's values,
independent of whatever an earlier evaluation left in the buffers. -/
theorem evaluateInto_overwrites {β : Type} (jw jw' : JacWorkspace β)
    (n0 n1 : ℕ) (vals0 vals1 : ℕ → β) (p q : ℕ) (hp : p < n0) (hq : q < n1) :
    (evaluateInto jw n0 n1 vals0 vals1).slot0 p = vals0 p ∧
    (evaluateInto jw n0 n1 vals0 vals1).slot1 q = vals1 q ∧
    (evaluateInto jw n0 n1 vals0 vals1).slot0 p =
      (evaluateInto jw' n0 n1 vals0 vals1).slot0 p ∧
    (evaluateInto jw n0 n1 vals0 vals1).slot1 q =
      (evaluateInto jw' n0 n1 vals0 vals1).slot1 q := by
  refine ⟨writeLoop_lt vals0 n0 jw.slot0 p hp, writeLoop_lt vals1 n1 jw.slot1 q hq, ?_, ?_⟩
  · rw [show (evaluateInto jw n0 n1 vals0 vals1).slot0 p = writeLoop vals0 n0 jw.slot0 p from rfl,
      writeLoop_lt vals0 n0 jw.slot0 p hp,
      show (evaluateInto jw' n0 n1 vals0 vals1).slot0 p = writeLoop vals0 n0 jw'.slot0 p from rfl,
      writeLoop_lt vals0 n0 jw'.slot0 p hp]
  · rw [show (evaluateInto jw n0 n1 vals0 vals1).slot1 q = writeLoop vals1 n1 jw.slot1 q from rfl,
      writeLoop_lt vals1 n1 jw.slot1 q hq,
      show (evaluateInto jw' n0 n1 vals0 vals1).slot1 q = writeLoop vals1 n1 jw'.slot1 q from rfl,
      writeLoop_lt vals1 n1 jw'.slot1 q hq]

/-- A workspace left dirty by a previous evaluation (stale constants). -/
def staleWs : JacWorkspace ℚ := ⟨fun _ => 37, fun _ => 41⟩

/-- A workspace with different stale content. -/
def staleWs' : JacWorkspace ℚ := ⟨fun _ => 0, fun _ => 1⟩

/-- Witness for C8: a 6×6 EdgeSE3-sized region (36 entries per slot). -/
theorem evaluateInto_overwrites_witness :
    20 < 36 ∧ 7 < 36 ∧
    ((evaluateInto staleWs 36 36 (fun p => (p : ℚ)) (fun p => (p : ℚ) + 2)).slot0 20 =
      ((20 : ℕ) : ℚ) ∧
    (evaluateInto staleWs 36 36 (fun p => (p : ℚ)) (fun p => (p : ℚ) + 2)).slot1 7 =
      ((7 : ℕ) : ℚ) + 2 ∧
    (evaluateInto staleWs 36 36 (fun p => (p : ℚ)) (fun p => (p : ℚ) + 2)).slot0 20 =
      (evaluateInto staleWs' 36 36 (fun p => (p : ℚ)) (fun p => (p : ℚ) + 2)).slot0 20 ∧
    (evaluateInto staleWs 36 36 (fun p => (p : ℚ)) (fun p => (p : ℚ) + 2)).slot1 7 =
      (evaluateInto staleWs' 36 36 (fun p => (p : ℚ)) (fun p => (p : ℚ) + 2)).slot1 7) :=
  ⟨by decide, by decide,
    evaluateInto_overwrites staleWs staleWs' 36 36
      (fun p => (p : ℚ)) (fun p => (p : ℚ) + 2) 20 7 (by decide) (by decide)⟩

end G2O
